import Mathlib

/-!
Verification of the post-build text transforms in scripts/build.js of the
BPB-Worker-Panel repository.  Source strings are shallowly embedded as lists
of character codes (Lean Nat per UTF-16 code unit), and each JavaScript
routine is translated into an executable Lean function.
-/

/- ===================================================================
   Obfuscation key scheme (customObfuscate, build.js lines 190-243).

   BASE_KEY = 128.  The encode callback computes, per character code c:
     code = c ^ XOR_KEY; code = (code + SHIFT_KEY) % BASE_KEY
   and the embedded decode routine computes:
     code = (code - SHIFT_KEY + BASE_KEY) % BASE_KEY; code = code ^ XOR_KEY.
   For an input code e with 0 <= e and SHIFT_KEY <= 128 the JavaScript
   expression (e - SHIFT_KEY + 128) is non-negative, so its truncating
   remainder agrees with the Nat expression ((e + 128) - SHIFT_KEY) % 128
   used here.
   =================================================================== -/

/-- The per-character encode step of customStringEncodings (XOR, then shift mod BASE_KEY). -/
def jsEncode (S K c : Nat) : Nat := ((c ^^^ K) + S) % 128

/-- The per-character step of the embedded decode routine (unshift mod BASE_KEY, then XOR). -/
def jsDecode (S K e : Nat) : Nat := (((e + 128) - S) % 128) ^^^ K

/- ===================================================================
   getRandomInt (build.js lines 30-32):
     Math.floor(Math.random() * (max - min + 1)) + min
   Math.random() is modelled as a rational r with 0 <= r < 1 (every IEEE
   double in that range is a rational, and for the factor sizes involved
   the double multiplication below is exact enough to stay below max-min+1).
   =================================================================== -/

/-- Model of getRandomInt with the Math.random() draw passed in as r. -/
def getRandomInt (r : ℚ) (min max : ℤ) : ℤ :=
  ⌊r * ((max : ℚ) - (min : ℚ) + 1)⌋ + min

/- ===================================================================
   removeNonAsciiCharacters (build.js lines 157-164):
     code.replace(/[^\x00-\x7F]|\\u[0-9A-Fa-f]{4}|\\u\{[0-9A-Fa-f]{1,6}\}/g, '')
   A global replace performs a single left-to-right pass over the input:
   at each position the alternatives are tried in order; on a match the
   matched span is dropped and scanning resumes after it, otherwise the
   character is kept and scanning advances by one.
   =================================================================== -/

/-- Hexadecimal digit test for the character classes [0-9A-Fa-f]. -/
def isHexDigitCode (c : Nat) : Bool :=
  (48 ≤ c && c ≤ 57) || (65 ≤ c && c ≤ 70) || (97 ≤ c && c ≤ 102)

/-- Match of the brace form u-brace-hex-brace directly after a backslash:
the candidate list starts after the backslash-u; returns the number of
characters consumed after the u (the brace pair plus 1..6 hex digits).
Backtracking inside the greedy hex run is vacuous because every shorter
run is followed by a hex digit, never by a closing brace. -/
def braceEsc (r2 : List Nat) : Option Nat :=
  match r2 with
  | 123 :: r3 =>
    let run := (r3.takeWhile isHexDigitCode).length
    if 1 ≤ run ∧ run ≤ 6 ∧ (r3.drop run).head? = some 125 then some (run + 2)
    else none
  | _ => none

/-- Length matched by the replace pattern at the head character c with tail
rest, counted as characters consumed from rest (the head is consumed
separately).  Alternatives in source order: a non-ASCII character, a
backslash-u with four hex digits, a backslash-u brace escape. -/
def uniEscLen (c : Nat) (rest : List Nat) : Option Nat :=
  if 127 < c then some 0
  else if c = 92 then
    match rest with
    | 117 :: r2 =>
      match r2 with
      | h1 :: h2 :: h3 :: h4 :: _ =>
        if isHexDigitCode h1 && isHexDigitCode h2 && isHexDigitCode h3 && isHexDigitCode h4 then
          some 5
        else (braceEsc r2).map (· + 1)
      | _ => (braceEsc r2).map (· + 1)
    | _ => none
  else none

/-- Single left-to-right pass of the global replace, with fuel for
termination; the initial fuel is the length of the list, which suffices
because every step consumes at least the head character. -/
def removeNonAsciiGo : Nat → List Nat → List Nat
  | 0, l => l
  | _ + 1, [] => []
  | fuel + 1, c :: rest =>
    match uniEscLen c rest with
    | some k => removeNonAsciiGo fuel (rest.drop k)
    | none => c :: removeNonAsciiGo fuel rest

/-- removeNonAsciiCharacters from build.js. -/
def removeNonAsciiCharacters (l : List Nat) : List Nat :=
  removeNonAsciiGo l.length l
/- ===================================================================
   removeConsoleLogs (build.js lines 39-124).

   The scanner finds each occurrence of the start pattern
   console.(log|error|warn|info|debug)\s*( left to right (the regex exec
   loop resumes after each found start pattern), then walks forward from
   the opening parenthesis keeping a nesting counter while tracking
   string state over the three quote delimiters with a one-character
   escape, exactly as the source loop does.  A balanced occurrence also
   absorbs following whitespace and at most one semicolon into its span;
   an unbalanced one is skipped.  Collected spans are then sorted by
   start offset descending and each is replaced, on the already partly
   replaced string but with the original offsets, by the text void-0
   with a semicolon appended exactly when the trimmed original span
   ends in one.  The POST_BUILD_CONFIG flags are all true, so the early
   return guards of the source are inactive and are not modelled.

   Lists of character codes name the pieces: consoleDot is the text
   console. and void0 is the text void 0.
   =================================================================== -/

/-- Whitespace test of the JavaScript regular expression class for
whitespace, applied to a single UTF-16 code unit. -/
def isJsSpace (c : Nat) : Bool :=
  c == 9 || c == 10 || c == 11 || c == 12 || c == 13 || c == 32 || c == 160 || c == 5760 ||
  (8192 ≤ c && c ≤ 8202) || c == 8232 || c == 8233 || c == 8239 || c == 8287 ||
  c == 12288 || c == 65279

/-- Character codes of the text console. -/
def consoleDot : List Nat := [99, 111, 110, 115, 111, 108, 101, 46]

/-- The severity alternation (log|error|warn|info|debug): when the list
starts with one of the five severities, the match length and the rest of
the list after it.  The five alternatives begin with distinct characters,
so the regex alternation is deterministic. -/
def sevLen : List Nat → Option (Nat × List Nat)
  | 108 :: 111 :: 103 :: r => some (3, r)
  | 101 :: 114 :: 114 :: 111 :: 114 :: r => some (5, r)
  | 119 :: 97 :: 114 :: 110 :: r => some (4, r)
  | 105 :: 110 :: 102 :: 111 :: r => some (4, r)
  | 100 :: 101 :: 98 :: 117 :: 103 :: r => some (5, r)
  | _ => none

/-- Length matched by the start regex console-dot severity whitespace
open-paren at the head of the list, when it matches. -/
def matchConsole (l : List Nat) : Option Nat :=
  if consoleDot.isPrefixOf l then
    match sevLen (l.drop 8) with
    | some (k, r) =>
      let w := (r.takeWhile isJsSpace).length
      if (r.drop w).head? = some 40 then some (8 + k + w + 1) else none
    | none => none
  else none

/-- All start-pattern occurrences with their match lengths, scanning left
to right and resuming after each match, as the exec loop with lastIndex
does.  The fuel argument is the length of the list. -/
def findStartsGo : Nat → List Nat → Nat → List (Nat × Nat)
  | 0, _, _ => []
  | _ + 1, [], _ => []
  | fuel + 1, c :: rest, i =>
    match matchConsole (c :: rest) with
    | some L => (i, L) :: findStartsGo fuel (rest.drop (L - 1)) (i + L)
    | none => findStartsGo fuel rest (i + 1)

/-- Start positions of the console start pattern in a list. -/
def findStarts (l : List Nat) : List (Nat × Nat) :=
  findStartsGo l.length l 0

/-- The balanced-parenthesis walk of the source: characters are consumed
one at a time while a nesting counter and a string state (inside-string
flag, current quote character, escape flag) are updated in the source's
condition order; the result is the number of characters consumed through
the parenthesis that brings the counter to zero, or none when the input
ends first. -/
def parenScan : List Nat → Nat → Bool → Nat → Bool → Option Nat
  | [], _, _, _, _ => none
  | c :: rest, cnt, inS, sc, esc =>
    if esc then (parenScan rest cnt inS sc false).map (· + 1)
    else if c == 92 && inS then (parenScan rest cnt inS sc true).map (· + 1)
    else if !inS && (c == 34 || c == 39 || c == 96) then
      (parenScan rest cnt true c false).map (· + 1)
    else if inS && c == sc then (parenScan rest cnt false 0 false).map (· + 1)
    else if !inS && c == 40 then (parenScan rest (cnt + 1) inS sc false).map (· + 1)
    else if !inS && c == 41 then
      if cnt = 1 then some 1 else (parenScan rest (cnt - 1) inS sc false).map (· + 1)
    else (parenScan rest cnt inS sc false).map (· + 1)

/-- Length of the whitespace run after a balanced call, plus one more for
a semicolon when that run is followed by one: the span extension the
source applies to endPos. -/
def absorbLen (l : List Nat) : Nat :=
  let w := (l.takeWhile isJsSpace).length
  if (l.drop w).head? = some 59 then w + 1 else w

/-- The trim method of JavaScript strings (strip whitespace at both ends). -/
def jsTrim (l : List Nat) : List Nat :=
  ((l.dropWhile isJsSpace).reverse.dropWhile isJsSpace).reverse

/-- A collected replacement span: start offset, end offset, original text.
The end offset is named stop because end is reserved. -/
structure Repl where
  start : Nat
  stop : Nat
  original : List Nat
deriving DecidableEq

/-- All replacement spans of a list: for every found start pattern whose
parenthesis walk balances, the span through the balancing parenthesis
extended by absorbed whitespace and semicolon; unbalanced occurrences
contribute nothing. -/
def collectRepl (code : List Nat) : List Repl :=
  (findStarts code).filterMap (fun p =>
    match parenScan (code.drop (p.1 + p.2)) 1 false 0 false with
    | some k =>
      let pos := p.1 + p.2 + k
      let e := pos + absorbLen (code.drop pos)
      some ⟨p.1, e, (code.drop p.1).take (e - p.1)⟩
    | none => none)

/-- Insertion step of sorting by start offset descending. -/
def insertDesc (r : Repl) : List Repl → List Repl
  | [] => [r]
  | x :: xs => if x.start ≤ r.start then r :: x :: xs else x :: insertDesc r xs

/-- Sort by start offset descending, the order the source applies
replacements in. -/
def sortDesc : List Repl → List Repl
  | [] => []
  | r :: rs => insertDesc r (sortDesc rs)

/-- Character codes of the replacement text void 0. -/
def void0 : List Nat := [118, 111, 105, 100, 32, 48]

/-- Apply the replacements in the given order: each one splices the
replacement text between the original start and end offsets of the
current, possibly already modified, result, exactly as the source's
substring concatenation does. -/
def applyRepl (rs : List Repl) (code : List Nat) : List Nat :=
  rs.foldl (fun result r =>
    let newCode := if (jsTrim r.original).getLast? = some 59 then void0 ++ [59] else void0
    result.take r.start ++ newCode ++ result.drop r.stop) code

/-- removeConsoleLogs from build.js. -/
def removeConsoleLogs (code : List Nat) : List Nat :=
  applyRepl (sortDesc (collectRepl code)) code

/- ===================================================================
   replaceNameCalls (build.js lines 127-154).

   matchAll with the pattern underscore underscore name open-paren
   ([^,]+),\s*"([^"]+)") yields the matches left to right, resuming
   after each match.  Both quantified groups are unambiguous: the first
   runs to the first comma, the second to the first double quote, and
   failed closing requirements cannot backtrack into them.  For each
   match the source builds a fresh call text by replacing, inside the
   matched text itself, the regex with the template
   underscore underscore name open-paren dollar-1 comma space quote
   random-hex quote close-paren; since the regex re-matches the whole
   matched text with the same two groups, this equals applying the
   ECMAScript GetSubstitution rules to the template with those captures.
   The new texts are then substituted one after the other with the
   string form of String.replace, which replaces the first occurrence of
   the searched text and applies GetSubstitution to the replacement text
   with an empty capture list.  The four random hexadecimal digits per
   label are modelled by a stream rnd of values below 16, one draw of
   Math.floor(Math.random() * 16) per digit.
   =================================================================== -/

/-- Character codes of the text underscore underscore name open-paren. -/
def nameHead : List Nat := [95, 95, 110, 97, 109, 101, 40]

/-- Attempt of the full name-call pattern at the head of the list:
returns the matched text and the two capture groups. -/
def matchNameCall (l : List Nat) : Option (List Nat × List Nat × List Nat) :=
  if nameHead.isPrefixOf l then
    let r0 := l.drop 7
    let expr := r0.takeWhile (fun c => c != 44)
    if expr.length = 0 then none
    else
      match r0.drop expr.length with
      | 44 :: r2 =>
        let w := (r2.takeWhile isJsSpace).length
        match r2.drop w with
        | 34 :: r4 =>
          let lab := r4.takeWhile (fun c => c != 34)
          if lab.length = 0 then none
          else
            match r4.drop lab.length with
            | 34 :: 41 :: _ =>
              some (l.take (7 + expr.length + 1 + w + 1 + lab.length + 2), expr, lab)
            | _ => none
        | _ => none
      | _ => none
  else none

/-- All name-call matches of a list, left to right, resuming after each
match; the fuel argument is the length of the list. -/
def findNameCallsGo : Nat → List Nat → List (List Nat × List Nat × List Nat)
  | 0, _ => []
  | _ + 1, [] => []
  | fuel + 1, c :: rest =>
    match matchNameCall (c :: rest) with
    | some m => m :: findNameCallsGo fuel ((c :: rest).drop m.1.length)
    | none => findNameCallsGo fuel rest

/-- The matchAll results for the name-call pattern. -/
def findNameCalls (l : List Nat) : List (List Nat × List Nat × List Nat) :=
  findNameCallsGo l.length l

/-- One random hexadecimal digit, as produced by
Math.floor(Math.random() * 16).toString(16). -/
def hexDigitChar (d : Fin 16) : Nat :=
  if (d : Nat) < 10 then 48 + (d : Nat) else 87 + (d : Nat)

/-- The four-digit random label for match number i, drawn from the
digit stream. -/
def randomHexLabel (rnd : Nat → Fin 16) (i : Nat) : List Nat :=
  [hexDigitChar (rnd (4 * i)), hexDigitChar (rnd (4 * i + 1)),
   hexDigitChar (rnd (4 * i + 2)), hexDigitChar (rnd (4 * i + 3))]

/-- The ECMAScript GetSubstitution rules for a replacement text: the
dollar escapes for dollar, the matched text, the text before the match,
the text after the match, and single-digit capture references (valid
digit references beyond the capture count stay literal; the patterns in
build.js have at most two captures, so two-digit references reduce to
the same results and are not modelled separately). -/
def jsSubst : List Nat → List Nat → List Nat → List Nat → List (List Nat) → List Nat
  | [], _, _, _, _ => []
  | [c], _, _, _, _ => [c]
  | c :: d :: t2, matched, before, after, caps =>
    if c = 36 then
      if d = 36 then 36 :: jsSubst t2 matched before after caps
      else if d = 38 then matched ++ jsSubst t2 matched before after caps
      else if d = 96 then before ++ jsSubst t2 matched before after caps
      else if d = 39 then after ++ jsSubst t2 matched before after caps
      else if 49 ≤ d ∧ d ≤ 57 ∧ d - 48 ≤ caps.length then
        (caps.getD (d - 49) []) ++ jsSubst t2 matched before after caps
      else 36 :: jsSubst (d :: t2) matched before after caps
    else c :: jsSubst (d :: t2) matched before after caps

/-- Position of the first occurrence of pat in a list, as String.indexOf
locates it for the string form of String.replace. -/
def findOcc (pat : List Nat) : List Nat → Option Nat
  | [] => if pat.isPrefixOf ([] : List Nat) then some 0 else none
  | c :: t => if pat.isPrefixOf (c :: t) then some 0 else (findOcc pat t).map (· + 1)

/-- String.replace with a string pattern: replace the first occurrence
of pat by the substituted replacement text (no captures). -/
def jsReplaceFirst (s pat repl : List Nat) : List Nat :=
  match findOcc pat s with
  | none => s
  | some i =>
    s.take i ++ jsSubst repl pat (s.take i) (s.drop (i + pat.length)) [] ++
      s.drop (i + pat.length)

/-- The replacement template with a given hex label spliced in: the text
underscore underscore name open-paren dollar-1 comma space quote hex
quote close-paren. -/
def nameTemplate (hex : List Nat) : List Nat :=
  [95, 95, 110, 97, 109, 101, 40, 36, 49, 44, 32, 34] ++ hex ++ [34, 41]

/-- The fresh call text for one match: the template applied to the match
via the substitution rules (captures are the expression and the label;
the regex consumes the whole matched text, so the before and after
parts are empty). -/
def buildNewCall (full expr lab hex : List Nat) : List Nat :=
  jsSubst (nameTemplate hex) full [] [] [expr, lab]

/-- replaceNameCalls from build.js, with the random digit stream as an
explicit parameter. -/
def replaceNameCalls (rnd : Nat → Fin 16) (code : List Nat) : List Nat :=
  let ms := findNameCalls code
  if ms = [] then code
  else
    ms.enum.foldl (fun acc im =>
      jsReplaceFirst acc im.2.1 (buildNewCall im.2.1 im.2.2.1 im.2.2.2 (randomHexLabel rnd im.1)))
      code

/- ===================================================================
   normalizeWhitespace (build.js lines 167-187).

   First pass: a global replace whose pattern is, in this alternation
   order, a double- or single-quoted string literal (escaped-quote
   aware), a regular-expression literal (lazy body of escaped slashes or
   non-slash non-newline characters, then optional flags), a lazy
   dotall block comment, a line comment, or a run of spaces and tabs;
   the callback keeps every match except a pure space run, which becomes
   a single space.  Second pass: every run of carriage returns and line
   feeds becomes a single line feed.

   The quoted-string alternative with its backtracking behaves as
   follows: scanning after the opening quote, an escaped-quote pair is
   preferred, any other character is consumed singly, and the first
   quote not consumed inside a pair closes the literal; if the input
   ends first, the engine backtracks the most recent pair into a single
   backslash and closes at that pair's quote, and fails when no pair was
   ever consumed.  The regular-expression alternative is lazy: after at
   least one body character, the first slash reached closes the body,
   escaped-slash pairs are preferred over single characters, a newline
   or the end of input triggers the same backtracking to the last pair's
   slash, failing when there is none.
   =================================================================== -/

/-- Space or tab. -/
def isHT (c : Nat) : Bool := c == 32 || c == 9

/-- Carriage return or line feed. -/
def isNL (c : Nat) : Bool := c == 13 || c == 10

/-- Regex literal flag characters g m i u y. -/
def isRegexFlag (c : Nat) : Bool :=
  c == 103 || c == 109 || c == 105 || c == 117 || c == 121

/-- Body scan of a quoted string literal with quote character q, starting
after the opening quote: i characters have been consumed so far and lp
records the consumed count through the quote of the most recent
escaped-quote pair.  Returns the consumed count through the closing
quote, or through the last pair's quote at end of input, or none. -/
def strBody (q : Nat) : List Nat → Nat → Option Nat → Option Nat
  | [], _, lp => lp
  | [c], i, lp => if c == q then some (i + 1) else lp
  | c :: d :: rest2, i, lp =>
    if c == 92 then
      if d == q then strBody q rest2 (i + 2) (some (i + 2))
      else strBody q (d :: rest2) (i + 1) lp
    else if c == q then some (i + 1)
    else strBody q (d :: rest2) (i + 1) lp

/-- Body scan of a regex literal after at least one body character has
been consumed: the first slash reached closes lazily, a newline or the
end of input falls back to the last escaped-slash pair. -/
def regexGo : List Nat → Nat → Option Nat → Option Nat
  | [], _, lp => lp
  | [c], i, lp => if c == 47 then some (i + 1) else lp
  | c :: d :: rest2, i, lp =>
    if c == 47 then some (i + 1)
    else if isNL c then lp
    else if c == 92 then
      if d == 47 then regexGo rest2 (i + 2) (some (i + 2))
      else regexGo (d :: rest2) (i + 1) lp
    else regexGo (d :: rest2) (i + 1) lp

/-- Body scan of a regex literal from just after the opening slash: the
one-or-more lazy body needs a first body character (an escaped-slash
pair or a single character other than slash and newlines) before any
closing slash is allowed. -/
def regexBody : List Nat → Option Nat
  | [] => none
  | c :: rest =>
    if c == 47 || isNL c then none
    else if c == 92 then
      match rest with
      | 47 :: rest2 => regexGo rest2 2 (some 2)
      | _ => regexGo rest 1 none
    else regexGo rest 1 none

/-- Offset of the first star-slash pair in a list: the lazy dotall body
of a block comment ends at the first such pair. -/
def findCloseBlock : List Nat → Option Nat
  | 42 :: 47 :: _ => some 0
  | _ :: rest => (findCloseBlock rest).map (· + 1)
  | [] => none

/-- One match attempt of the first-pass pattern at head character c with
tail rest, trying the alternatives in source order; returns the number
of characters consumed from rest together with the text emitted by the
replacement callback (the match itself, except that a space run emits
one space). -/
def tryTok (c : Nat) (rest : List Nat) : Option (Nat × List Nat) :=
  if c == 34 || c == 39 then
    (strBody c rest 0 none).map (fun j => (j, c :: rest.take j))
  else if c == 47 then
    match regexBody rest with
    | some j =>
      let fl := ((rest.drop j).takeWhile isRegexFlag).length
      some (j + fl, c :: rest.take (j + fl))
    | none =>
      match rest with
      | 42 :: r2 => (findCloseBlock r2).map (fun k => (1 + k + 2, c :: rest.take (1 + k + 2)))
      | 47 :: r2 =>
        some (1 + (r2.takeWhile (fun d => !isNL d)).length,
              c :: rest.take (1 + (r2.takeWhile (fun d => !isNL d)).length))
      | _ => none
  else if isHT c then some ((rest.takeWhile isHT).length, [32])
  else none

/-- The first pass as a left-to-right scan: on a match, emit the
callback's text and resume after the match; otherwise keep the
character.  The fuel argument is the length of the list. -/
def scan1 : Nat → List Nat → List Nat
  | 0, l => l
  | _ + 1, [] => []
  | fuel + 1, c :: rest =>
    match tryTok c rest with
    | some (k, out) => out ++ scan1 fuel (rest.drop k)
    | none => c :: scan1 fuel rest

/-- The second pass: every run of carriage returns and line feeds becomes
a single line feed. -/
def pass2Go : Bool → List Nat → List Nat
  | _, [] => []
  | prev, c :: rest =>
    if isNL c then (if prev then pass2Go true rest else 10 :: pass2Go true rest)
    else c :: pass2Go false rest

/-- normalizeWhitespace from build.js: the protecting first pass, then
the newline-collapsing second pass. -/
def normalizeWhitespace (l : List Nat) : List Nat :=
  pass2Go false (scan1 l.length l)


/- ===================================================================
   Theorems for claims C1, C10, C4.
   =================================================================== -/

set_option maxRecDepth 8192 in
/-- Helper: the intended round-trip does hold whenever the XOR key stays
below BASE_KEY; the failure proved in the C1 theorem is specific to
XOR_KEY = BASE_KEY = 128. -/
theorem jsDecode_jsEncode_of_xor_lt (S K c : Nat)
    (hS1 : 1 ≤ S) (hS2 : S ≤ 128) (hK : K ≤ 127) (hc : c ≤ 127) :
    jsDecode S K (jsEncode S K c) = c := by
  have hxall : ∀ a < 128, ∀ b < 128, a ^^^ b < 128 := by decide
  have hx : c ^^^ K < 128 := hxall c (by omega) K (by omega)
  unfold jsEncode jsDecode
  have hmod : ((((c ^^^ K) + S) % 128 + 128) - S) % 128 = c ^^^ K := by omega
  rw [hmod, Nat.xor_assoc, Nat.xor_self, Nat.xor_zero]

/-- C1: the encode and decode routines do not round-trip over the whole
configured key range.  With SHIFT_KEY = 1 and XOR_KEY = 128 (both drawn
from getRandomInt(1, BASE_KEY), which is inclusive of 128), decoding the
encoding of character code 0 yields 128, not 0. -/
theorem c1_roundtrip_fails_at_xor_128 :
    jsDecode 1 128 (jsEncode 1 128 0) = 128 ∧ jsDecode 1 128 (jsEncode 1 128 0) ≠ 0 := by
  decide

/-- C10: getRandomInt(min, max) lands in the inclusive range from min to
max for every Math.random() outcome r with 0 <= r < 1 and min <= max,
and the draw 255/256 realizes getRandomInt(1, 128) = 128, so a key drawn
as getRandomInt(1, BASE_KEY) can equal BASE_KEY itself. -/
theorem getRandomInt_mem_inclusive_range (r : ℚ) (min max : ℤ)
    (h0 : 0 ≤ r) (h1 : r < 1) (hle : min ≤ max) :
    min ≤ getRandomInt r min max ∧ getRandomInt r min max ≤ max ∧
      getRandomInt (255/256) 1 128 = 128 := by
  have hn : (0 : ℚ) < (max : ℚ) - (min : ℚ) + 1 := by
    have : (min : ℚ) ≤ (max : ℚ) := by exact_mod_cast hle
    linarith
  have hlow : 0 ≤ ⌊r * ((max : ℚ) - (min : ℚ) + 1)⌋ := by
    apply Int.le_floor.mpr
    push_cast
    exact mul_nonneg h0 (le_of_lt hn)
  have hhigh : ⌊r * ((max : ℚ) - (min : ℚ) + 1)⌋ < max - min + 1 := by
    apply Int.floor_lt.mpr
    push_cast
    calc r * ((max : ℚ) - (min : ℚ) + 1)
        < 1 * ((max : ℚ) - (min : ℚ) + 1) := by
          exact mul_lt_mul_of_pos_right h1 hn
      _ = (max : ℚ) - (min : ℚ) + 1 := by ring
  refine ⟨?_, ?_, ?_⟩
  · unfold getRandomInt; omega
  · unfold getRandomInt; omega
  · have hf : ⌊(255/2 : ℚ)⌋ = 127 := by
      rw [Int.floor_eq_iff]
      constructor <;> norm_num
    unfold getRandomInt
    push_cast
    rw [show (255/256 : ℚ) * (128 - 1 + 1) = 255/2 by norm_num, hf]
    norm_num

/-- Witness for the C10 theorem at r = 255/256, min = 1, max = 128. -/
theorem getRandomInt_mem_inclusive_range_witness :
    1 ≤ getRandomInt (255/256) 1 128 ∧ getRandomInt (255/256) 1 128 ≤ 128 ∧
      getRandomInt (255/256) 1 128 = 128 :=
  getRandomInt_mem_inclusive_range (255/256) 1 128 (by norm_num) (by norm_num) (by norm_num)

/-- If no alternative of the replace pattern fires at a position, the head
character there is plain ASCII. -/
theorem uniEscLen_none_le {c : Nat} {rest : List Nat}
    (h : uniEscLen c rest = none) : c ≤ 127 := by
  by_contra hc
  have h127 : 127 < c := by omega
  unfold uniEscLen at h
  rw [if_pos h127] at h
  exact absurd h (by simp)

/-- Every character in the output of the stripping pass is plain ASCII. -/
theorem removeNonAsciiGo_ascii :
    ∀ (fuel : Nat) (l : List Nat), l.length ≤ fuel →
      ∀ c ∈ removeNonAsciiGo fuel l, c ≤ 127 := by
  intro fuel
  induction fuel with
  | zero =>
    intro l hl c hc
    have : l = [] := List.eq_nil_of_length_eq_zero (by omega)
    subst this
    simp [removeNonAsciiGo] at hc
  | succ n ih =>
    intro l hl c hc
    match l with
    | [] => simp [removeNonAsciiGo] at hc
    | a :: rest =>
      simp only [removeNonAsciiGo] at hc
      cases hm : uniEscLen a rest with
      | some k =>
        rw [hm] at hc
        apply ih (rest.drop k) _ c hc
        have := List.length_drop k rest
        simp at hl
        omega
      | none =>
        rw [hm] at hc
        simp only [List.mem_cons] at hc
        rcases hc with hc | hc
        · subst hc; exact uniEscLen_none_le hm
        · apply ih rest _ c hc
          simp at hl
          omega

/-- C4 (amended): the output of removeNonAsciiCharacters is pure 7-bit
text, every character code in it is at most 127.  (The further part of
the original claim, that no escape sequences remain, is refuted by the
counterexample theorem below.) -/
theorem removeNonAsciiCharacters_ascii (l : List Nat) (c : Nat)
    (hc : c ∈ removeNonAsciiCharacters l) : c ≤ 127 :=
  removeNonAsciiGo_ascii l.length l (le_refl _) c hc

/-- Witness for the C4 theorem: on input with codes 200 and 65 the output
contains 65, and 65 is at most 127. -/
theorem removeNonAsciiCharacters_ascii_witness :
    65 ∈ removeNonAsciiCharacters [200, 65] ∧ 65 ≤ 127 :=
  ⟨by decide, removeNonAsciiCharacters_ascii [200, 65] 65 (by decide)⟩

/-- C4 counterexample: on the 12-character ASCII input
backslash u backslash u 0 0 4 1 0 0 4 1
the single left-to-right pass removes only the complete escape starting
at offset 2 (backslash u 0 0 4 1), and the untouched fragments around it
concatenate to the six-character output backslash u 0 0 4 1, which is
itself a 4-hex-digit Unicode escape sequence: stripping the output again
removes everything.  So the output is not free of escape sequences. -/
theorem removeNonAsciiCharacters_creates_escape :
    removeNonAsciiCharacters [92, 117, 92, 117, 48, 48, 52, 49, 48, 48, 52, 49] =
      [92, 117, 48, 48, 52, 49] ∧
    removeNonAsciiCharacters [92, 117, 48, 48, 52, 49] = [] := by
  decide


/-- C2 counterexample: on the input console.log(console.log(1)); x
(a console call nested inside another console call's arguments followed
by a semicolon and the text space x) the output is void 0; with the
trailing space x lost, because the outer replacement applies its
original end offset to the string already shortened by the inner
replacement.  The claim's promised output would keep the tail. -/
theorem removeConsoleLogs_nested_loses_tail :
    removeConsoleLogs
        [99, 111, 110, 115, 111, 108, 101, 46, 108, 111, 103, 40,
         99, 111, 110, 115, 111, 108, 101, 46, 108, 111, 103, 40,
         49, 41, 41, 59, 32, 120] =
      [118, 111, 105, 100, 32, 48, 59] ∧
    removeConsoleLogs
        [99, 111, 110, 115, 111, 108, 101, 46, 108, 111, 103, 40,
         99, 111, 110, 115, 111, 108, 101, 46, 108, 111, 103, 40,
         49, 41, 41, 59, 32, 120] ≠
      [118, 111, 105, 100, 32, 48, 59, 32, 120] := by
  decide

/- ===================================================================
   List helpers used throughout the claim proofs.
   =================================================================== -/

/-- Take past an appended prefix of known length. -/
theorem take_append_len (A B : List Nat) (j : Nat) :
    (A ++ B).take (A.length + j) = A ++ B.take j := by
  induction A with
  | nil => simp
  | cons a as ih =>
    simp only [List.cons_append, List.length_cons]
    rw [show as.length + 1 + j = (as.length + j) + 1 by omega]
    simp [List.take_succ_cons, ih]

/-- Drop past an appended prefix of known length. -/
theorem drop_append_len (A B : List Nat) (j : Nat) :
    (A ++ B).drop (A.length + j) = B.drop j := by
  induction A with
  | nil => simp
  | cons a as ih =>
    simp only [List.cons_append, List.length_cons]
    rw [show as.length + 1 + j = (as.length + j) + 1 by omega]
    simp [List.drop_succ_cons, ih]

/-- A list is a Boolean prefix of itself followed by anything. -/
theorem isPrefixOf_append_self (A B : List Nat) : A.isPrefixOf (A ++ B) = true := by
  induction A with
  | nil => simp [List.isPrefixOf]
  | cons a as ih => simp [List.isPrefixOf, ih]

/- ===================================================================
   Scanner lemmas for removeConsoleLogs.
   =================================================================== -/

/-- The start scanner yields nothing on the empty list, whatever the fuel. -/
theorem findStartsGo_nil (f i : Nat) : findStartsGo f [] i = [] := by
  cases f <;> rfl

/-- A position whose head character is not the letter c cannot start the
console pattern. -/
theorem matchConsole_cons_ne {c : Nat} (rest : List Nat) (hc : c ≠ 99) :
    matchConsole (c :: rest) = none := by
  have hpre : consoleDot.isPrefixOf (c :: rest) = false := by
    simp [consoleDot, List.isPrefixOf]
    omega
  simp [matchConsole, hpre]

/-- The start scanner ignores a leading chunk free of the letter c. -/
theorem findStartsGo_chunk (cs : List Nat) (h : ∀ c ∈ cs, c ≠ 99) :
    ∀ (f i : Nat) (rest : List Nat),
      findStartsGo (cs.length + f) (cs ++ rest) i = findStartsGo f rest (i + cs.length) := by
  induction cs with
  | nil => intro f i rest; simp
  | cons a as ih =>
    intro f i rest
    have ha : a ≠ 99 := h a (by simp)
    simp only [List.cons_append, List.length_cons]
    rw [show as.length + 1 + f = (as.length + f) + 1 by omega]
    simp only [findStartsGo, matchConsole_cons_ne _ ha]
    rw [ih (fun c hc => h c (by simp [hc])) f (i + 1) rest]
    rw [show i + 1 + as.length = i + (as.length + 1) by omega]

/-- The start scanner returns nothing on a list free of the letter c. -/
theorem findStartsGo_all_ne (l : List Nat) (h : ∀ c ∈ l, c ≠ 99) :
    ∀ f i, findStartsGo f l i = [] := by
  induction l with
  | nil => intro f i; exact findStartsGo_nil f i
  | cons a rest ih =>
    intro f i
    cases f with
    | zero => rfl
    | succ m =>
      simp only [findStartsGo, matchConsole_cons_ne _ (h a (by simp))]
      exact ih (fun c hc => h c (by simp [hc])) m (i + 1)

/-- One successful step of the start scanner, consuming the match. -/
theorem findStartsGo_match (f i L : Nat) (c : Nat) (rest : List Nat)
    (hm : matchConsole (c :: rest) = some L) (hL : 1 ≤ L) :
    findStartsGo (f + 1) (c :: rest) i =
      (i, L) :: findStartsGo f ((c :: rest).drop L) (i + L) := by
  simp only [findStartsGo, hm]
  congr 1
  cases L with
  | zero => omega
  | succ m => simp

/-- The paren walk on a character other than a quote or a parenthesis in
neutral state just consumes it. -/
theorem parenScan_step_plain (c : Nat) (rest : List Nat) (cnt : Nat)
    (h34 : c ≠ 34) (h39 : c ≠ 39) (h96 : c ≠ 96) (h40 : c ≠ 40) (h41 : c ≠ 41) :
    parenScan (c :: rest) cnt false 0 false =
      (parenScan rest cnt false 0 false).map (· + 1) := by
  simp [parenScan, h34, h39, h96, h40, h41]

/-- The paren walk consumes a whole chunk of such characters. -/
theorem parenScan_chunk_plain (cs : List Nat)
    (h : ∀ c ∈ cs, c ≠ 34 ∧ c ≠ 39 ∧ c ≠ 96 ∧ c ≠ 40 ∧ c ≠ 41) :
    ∀ (rest : List Nat) (cnt : Nat),
      parenScan (cs ++ rest) cnt false 0 false =
        (parenScan rest cnt false 0 false).map (· + cs.length) := by
  induction cs with
  | nil =>
    intro rest cnt
    simp only [List.nil_append, List.length_nil]
    cases hps : parenScan rest cnt false 0 false <;> simp [hps]
  | cons a as ih =>
    intro rest cnt
    obtain ⟨h34, h39, h96, h40, h41⟩ := h a (by simp)
    rw [List.cons_append, parenScan_step_plain a _ cnt h34 h39 h96 h40 h41,
      ih (fun c hc => h c (by simp [hc]))]
    cases hps : parenScan rest cnt false 0 false <;> simp [hps]
    omega

/-- The paren walk on an opening parenthesis increments the counter. -/
theorem parenScan_open (rest : List Nat) (cnt : Nat) :
    parenScan (40 :: rest) cnt false 0 false =
      (parenScan rest (cnt + 1) false 0 false).map (· + 1) := by
  simp [parenScan]

/-- The paren walk on a closing parenthesis above depth one decrements. -/
theorem parenScan_close_gt (rest : List Nat) (cnt : Nat) (h : cnt ≠ 1) :
    parenScan (41 :: rest) cnt false 0 false =
      (parenScan rest (cnt - 1) false 0 false).map (· + 1) := by
  simp [parenScan, h]

/-- The paren walk balances on a closing parenthesis at depth one. -/
theorem parenScan_close_one (rest : List Nat) :
    parenScan (41 :: rest) 1 false 0 false = some 1 := by
  simp [parenScan]

/-- The paren walk through a run of opening parentheses. -/
theorem parenScan_opens (n : Nat) :
    ∀ (rest : List Nat) (cnt : Nat),
      parenScan (List.replicate n 40 ++ rest) cnt false 0 false =
        (parenScan rest (cnt + n) false 0 false).map (· + n) := by
  induction n with
  | zero =>
    intro rest cnt
    simp only [List.replicate, List.nil_append, Nat.add_zero]
    cases hps : parenScan rest cnt false 0 false <;> simp [hps]
  | succ m ih =>
    intro rest cnt
    rw [List.replicate_succ, List.cons_append, parenScan_open, ih]
    rw [show cnt + 1 + m = cnt + (m + 1) by omega]
    cases hps : parenScan rest (cnt + (m + 1)) false 0 false <;> simp [hps]
    omega

/-- The paren walk through a run of closing parentheses that stays above
depth zero. -/
theorem parenScan_closes (n : Nat) :
    ∀ (rest : List Nat) (cnt : Nat), 1 ≤ cnt →
      parenScan (List.replicate n 41 ++ rest) (cnt + n) false 0 false =
        (parenScan rest cnt false 0 false).map (· + n) := by
  induction n with
  | zero =>
    intro rest cnt _
    simp only [List.replicate, List.nil_append]
    cases hps : parenScan rest cnt false 0 false <;> simp [hps]
  | succ m ih =>
    intro rest cnt hcnt
    rw [List.replicate_succ, List.cons_append,
      parenScan_close_gt _ (cnt + (m + 1)) (by omega),
      show cnt + (m + 1) - 1 = cnt + m by omega, ih rest cnt hcnt]
    cases hps : parenScan rest cnt false 0 false <;> simp [hps]
    omega

/-- The paren walk opens a string on a quote character. -/
theorem parenScan_quote_open (c : Nat) (rest : List Nat) (cnt : Nat)
    (h : c = 34 ∨ c = 39 ∨ c = 96) :
    parenScan (c :: rest) cnt false 0 false =
      (parenScan rest cnt true c false).map (· + 1) := by
  rcases h with h | h | h <;> subst h <;> simp [parenScan]

/-- Inside a string the paren walk consumes an ordinary character. -/
theorem parenScan_instr_plain (c sc : Nat) (rest : List Nat) (cnt : Nat)
    (h92 : c ≠ 92) (hsc : c ≠ sc) :
    parenScan (c :: rest) cnt true sc false =
      (parenScan rest cnt true sc false).map (· + 1) := by
  simp [parenScan, h92, hsc]

/-- Inside a string a backslash sets the escape flag. -/
theorem parenScan_instr_backslash (sc : Nat) (rest : List Nat) (cnt : Nat) :
    parenScan (92 :: rest) cnt true sc false =
      (parenScan rest cnt true sc true).map (· + 1) := by
  simp [parenScan]

/-- With the escape flag set the paren walk consumes any character and
clears the flag. -/
theorem parenScan_escaped (c sc : Nat) (rest : List Nat) (cnt : Nat) :
    parenScan (c :: rest) cnt true sc true =
      (parenScan rest cnt true sc false).map (· + 1) := by
  simp [parenScan]

/-- Inside a string its own quote character closes it. -/
theorem parenScan_instr_close (sc : Nat) (rest : List Nat) (cnt : Nat) (h92 : sc ≠ 92) :
    parenScan (sc :: rest) cnt true sc false =
      (parenScan rest cnt false 0 false).map (· + 1) := by
  simp [parenScan, h92]

/-- Characters of a replicate run are the replicated character. -/
theorem mem_replicate_ne (n a b : Nat) (hab : a ≠ b) :
    ∀ c ∈ List.replicate n a, c ≠ b := by
  intro c hc
  have := List.eq_of_mem_replicate hc
  omega

/-- One successful step of the start scanner on any non-empty list. -/
theorem findStartsGo_match_any (f i L : Nat) (l : List Nat)
    (hm : matchConsole l = some L) (hL : 1 ≤ L) (hne : l ≠ []) :
    findStartsGo (f + 1) l i = (i, L) :: findStartsGo f (l.drop L) (i + L) := by
  match l with
  | [] => exact absurd rfl hne
  | c :: rest => exact findStartsGo_match f i L c rest hm hL

/-- C7: an occurrence whose parenthesis walk never balances is skipped
with no replacement and no failure, and the scanner still processes the
remainder of the text: for every extra nesting depth n, the input
console.log open-paren followed by n opening parentheses, a semicolon,
and console.error(1); keeps the unterminated call intact while the
balanced console.error call is replaced by void 0 with its semicolon. -/
theorem removeConsoleLogs_skips_unterminated (n : Nat) :
    removeConsoleLogs
        ([99, 111, 110, 115, 111, 108, 101, 46, 108, 111, 103, 40] ++
          (List.replicate n 40 ++
            [59, 99, 111, 110, 115, 111, 108, 101, 46, 101, 114, 114, 111, 114, 40, 49, 41, 59])) =
      [99, 111, 110, 115, 111, 108, 101, 46, 108, 111, 103, 40] ++
        (List.replicate n 40 ++ ([59] ++ (void0 ++ [59]))) := by
  have hrep : ∀ c ∈ List.replicate n 40, c ≠ 99 := mem_replicate_ne n 40 99 (by omega)
  have hlenA :
      (([99, 111, 110, 115, 111, 108, 101, 46, 108, 111, 103, 40] : List Nat) ++
        List.replicate n 40).length = n + 12 := by
    simp only [List.length_append, List.length_cons, List.length_nil, List.length_replicate]
    omega
  have hm1 : matchConsole
      ([99, 111, 110, 115, 111, 108, 101, 46, 108, 111, 103, 40] ++
        (List.replicate n 40 ++
          [59, 99, 111, 110, 115, 111, 108, 101, 46, 101, 114, 114, 111, 114, 40, 49, 41, 59])) =
      some 12 := rfl
  have hpost : ∀ i0 : Nat,
      findStartsGo 29
        [59, 99, 111, 110, 115, 111, 108, 101, 46, 101, 114, 114, 111, 114, 40, 49, 41, 59] i0 =
      [(i0 + 1, 14)] := fun _ => rfl
  have hlenfull :
      (([99, 111, 110, 115, 111, 108, 101, 46, 108, 111, 103, 40] : List Nat) ++
        (List.replicate n 40 ++
          [59, 99, 111, 110, 115, 111, 108, 101, 46, 101, 114, 114, 111, 114, 40, 49, 41, 59])).length
      = (n + 29) + 1 := by
    simp only [List.length_append, List.length_cons, List.length_nil, List.length_replicate]
    omega
  have hdrop12 :
      (([99, 111, 110, 115, 111, 108, 101, 46, 108, 111, 103, 40] : List Nat) ++
        (List.replicate n 40 ++
          [59, 99, 111, 110, 115, 111, 108, 101, 46, 101, 114, 114, 111, 114, 40, 49, 41, 59])).drop 12
      = List.replicate n 40 ++
          [59, 99, 111, 110, 115, 111, 108, 101, 46, 101, 114, 114, 111, 114, 40, 49, 41, 59] := rfl
  have hfuel : n + 29 = (List.replicate n 40).length + 29 := by
    simp only [List.length_replicate]
  have hFind : findStarts
      ([99, 111, 110, 115, 111, 108, 101, 46, 108, 111, 103, 40] ++
        (List.replicate n 40 ++
          [59, 99, 111, 110, 115, 111, 108, 101, 46, 101, 114, 114, 111, 114, 40, 49, 41, 59])) =
      [(0, 12), (12 + n + 1, 14)] := by
    unfold findStarts
    rw [hlenfull]
    rw [findStartsGo_match_any (n + 29) 0 12 _ hm1 (by omega) (by simp)]
    rw [hdrop12, hfuel]
    rw [findStartsGo_chunk (List.replicate n 40) hrep 29 12 _]
    rw [hpost (12 + (List.replicate n 40).length)]
    simp
  have hps1 : parenScan
      ((([99, 111, 110, 115, 111, 108, 101, 46, 108, 111, 103, 40] : List Nat) ++
        (List.replicate n 40 ++
          [59, 99, 111, 110, 115, 111, 108, 101, 46, 101, 114, 114, 111, 114, 40, 49, 41, 59])).drop
        (0 + 12)) 1 false 0 false = none := by
    have hd : (([99, 111, 110, 115, 111, 108, 101, 46, 108, 111, 103, 40] : List Nat) ++
        (List.replicate n 40 ++
          [59, 99, 111, 110, 115, 111, 108, 101, 46, 101, 114, 114, 111, 114, 40, 49, 41, 59])).drop
        (0 + 12)
      = List.replicate n 40 ++
          [59, 99, 111, 110, 115, 111, 108, 101, 46, 101, 114, 114, 111, 114, 40, 49, 41, 59] := rfl
    rw [hd, parenScan_opens n _ 1]
    have hsplit : ([59, 99, 111, 110, 115, 111, 108, 101, 46, 101, 114, 114, 111, 114, 40, 49, 41, 59] : List Nat)
      = [59, 99, 111, 110, 115, 111, 108, 101, 46, 101, 114, 114, 111, 114] ++ (40 :: [49, 41, 59]) := rfl
    rw [hsplit, parenScan_chunk_plain _ (by decide) _ (1 + n), parenScan_open [49, 41, 59] (1 + n)]
    have hsplit2 : ([49, 41, 59] : List Nat) = 49 :: [41, 59] := rfl
    rw [hsplit2,
      parenScan_step_plain 49 [41, 59] (1 + n + 1) (by omega) (by omega) (by omega) (by omega) (by omega)]
    have hsplit3 : ([41, 59] : List Nat) = 41 :: [59] := rfl
    rw [hsplit3, parenScan_close_gt [59] (1 + n + 1) (by omega)]
    have hsplit4 : ([59] : List Nat) = 59 :: [] := rfl
    rw [hsplit4,
      parenScan_step_plain 59 [] (1 + n + 1 - 1) (by omega) (by omega) (by omega) (by omega) (by omega)]
    rfl
  have hps2 : parenScan
      ((([99, 111, 110, 115, 111, 108, 101, 46, 108, 111, 103, 40] : List Nat) ++
        (List.replicate n 40 ++
          [59, 99, 111, 110, 115, 111, 108, 101, 46, 101, 114, 114, 111, 114, 40, 49, 41, 59])).drop
        (12 + n + 1 + 14)) 1 false 0 false = some 2 := by
    rw [← List.append_assoc]
    have harith : 12 + n + 1 + 14 = (n + 12) + 15 := by omega
    rw [harith, ← hlenA, drop_append_len]
    rfl
  have hdrop29 : (([99, 111, 110, 115, 111, 108, 101, 46, 108, 111, 103, 40] : List Nat) ++
        (List.replicate n 40 ++
          [59, 99, 111, 110, 115, 111, 108, 101, 46, 101, 114, 114, 111, 114, 40, 49, 41, 59])).drop
        (12 + n + 1 + 14 + 2) = [59] := by
    rw [← List.append_assoc]
    have harith : 12 + n + 1 + 14 + 2 = (n + 12) + 17 := by omega
    rw [harith, ← hlenA, drop_append_len]
    rfl
  have hdrop13 : (([99, 111, 110, 115, 111, 108, 101, 46, 108, 111, 103, 40] : List Nat) ++
        (List.replicate n 40 ++
          [59, 99, 111, 110, 115, 111, 108, 101, 46, 101, 114, 114, 111, 114, 40, 49, 41, 59])).drop
        (12 + n + 1) = [99, 111, 110, 115, 111, 108, 101, 46, 101, 114, 114, 111, 114, 40, 49, 41, 59] := by
    rw [← List.append_assoc]
    have harith : 12 + n + 1 = (n + 12) + 1 := by omega
    rw [harith, ← hlenA, drop_append_len]
    rfl
  have hColl : collectRepl
      ([99, 111, 110, 115, 111, 108, 101, 46, 108, 111, 103, 40] ++
        (List.replicate n 40 ++
          [59, 99, 111, 110, 115, 111, 108, 101, 46, 101, 114, 114, 111, 114, 40, 49, 41, 59])) =
      [⟨12 + n + 1,
        12 + n + 1 + 14 + 2 + 1,
        [99, 111, 110, 115, 111, 108, 101, 46, 101, 114, 114, 111, 114, 40, 49, 41, 59]⟩] := by
    unfold collectRepl
    rw [hFind]
    simp only [List.filterMap_cons, hps1, hps2]
    rw [hdrop29, hdrop13]
    rw [show absorbLen [59] = 1 from rfl]
    have harith : 12 + n + 1 + 14 + 2 + 1 - (12 + n + 1) = 17 := by omega
    rw [harith]
    rfl
  have htake : (([99, 111, 110, 115, 111, 108, 101, 46, 108, 111, 103, 40] : List Nat) ++
        (List.replicate n 40 ++
          [59, 99, 111, 110, 115, 111, 108, 101, 46, 101, 114, 114, 111, 114, 40, 49, 41, 59])).take
        (12 + n + 1) =
      ([99, 111, 110, 115, 111, 108, 101, 46, 108, 111, 103, 40] ++ List.replicate n 40) ++ [59] := by
    rw [← List.append_assoc]
    have harith : 12 + n + 1 = (n + 12) + 1 := by omega
    rw [harith, ← hlenA, take_append_len]
    rfl
  have hdropEnd : (([99, 111, 110, 115, 111, 108, 101, 46, 108, 111, 103, 40] : List Nat) ++
        (List.replicate n 40 ++
          [59, 99, 111, 110, 115, 111, 108, 101, 46, 101, 114, 114, 111, 114, 40, 49, 41, 59])).drop
        (12 + n + 1 + 14 + 2 + 1) = [] := by
    rw [← List.append_assoc]
    have harith : 12 + n + 1 + 14 + 2 + 1 = (n + 12) + 18 := by omega
    rw [harith, ← hlenA, drop_append_len]
    rfl
  unfold removeConsoleLogs
  rw [hColl]
  simp only [sortDesc, insertDesc, applyRepl, List.foldl_cons, List.foldl_nil]
  rw [show (jsTrim [99, 111, 110, 115, 111, 108, 101, 46, 101, 114, 114, 111, 114, 40, 49, 41, 59]).getLast?
    = some 59 from rfl]
  simp only [if_pos]
  rw [htake, hdropEnd]
  simp [List.append_assoc, void0]

/-- Evaluation of the start pattern at a console occurrence: console-dot,
a severity recognized by sevLen with match length k, then directly an
opening parenthesis. -/
theorem matchConsole_eval (sev : List Nat) (k : Nat)
    (hsev : ∀ r : List Nat, sevLen (sev ++ r) = some (k, r)) (tail : List Nat) :
    matchConsole (consoleDot ++ (sev ++ (40 :: tail))) = some (k + 9) := by
  have hd8 : (consoleDot ++ (sev ++ (40 :: tail))).drop 8 = sev ++ (40 :: tail) := by
    rw [show (8 : Nat) = consoleDot.length + 0 from rfl, drop_append_len, List.drop_zero]
  simp only [matchConsole, isPrefixOf_append_self, if_true, hd8, hsev (40 :: tail)]
  have hw : ((40 : Nat) :: tail).takeWhile isJsSpace = [] := by
    simp [List.takeWhile_cons, isJsSpace]
  simp [hw]
  omega

/-- The trim of a list with non-whitespace first and last characters ends
in its last character. -/
theorem jsTrim_getLast_of_ends (a b : Nat) (M : List Nat)
    (ha : isJsSpace a = false) (hb : isJsSpace b = false) :
    (jsTrim (a :: (M ++ [b]))).getLast? = some b := by
  unfold jsTrim
  rw [List.dropWhile_cons]
  simp only [ha, Bool.false_eq_true, if_false]
  have hrev : ((a :: (M ++ [b])) : List Nat).reverse = b :: (M.reverse ++ [a]) := by
    simp
  rw [hrev, List.dropWhile_cons]
  simp only [hb, Bool.false_eq_true, if_false]
  have : ((b :: (M.reverse ++ [a])) : List Nat).reverse = a :: (M ++ [b]) := by
    simp
  rw [this]
  rw [show (a :: (M ++ [b])) = (a :: M) ++ (b :: []) from by simp]
  rw [List.getLast?_append_cons]
  rfl

/-- Family lemma for the amended C2 claim, for any severity word sev that
sevLen recognizes with match length k: the input
x-assignment semicolon console-dot sev open-paren, n extra opening
parentheses, a double-quoted string containing an opening parenthesis,
an escaped quote and a semicolon, the n matching closing parentheses,
the closing parenthesis, a semicolon and a final letter, maps to the
x-assignment followed by void 0 semicolon and the final letter. -/
theorem removeConsoleLogs_family (sev : List Nat) (k : Nat)
    (hsev : ∀ r : List Nat, sevLen (sev ++ r) = some (k, r))
    (hlen : sev.length = k) (n : Nat) :
    removeConsoleLogs
        ([97, 61, 49, 59] ++ (consoleDot ++ (sev ++ (40 ::
          (List.replicate n 40 ++ ([34, 40, 92, 34, 59, 34] ++
            (List.replicate n 41 ++ [41, 59, 98]))))))) =
      [97, 61, 49, 59] ++ (void0 ++ [59, 98]) := by
  have htail99 : ∀ c ∈ (List.replicate n 40 ++ ([34, 40, 92, 34, 59, 34] ++
      (List.replicate n 41 ++ [41, 59, 98]))), c ≠ 99 := by
    intro c hc h99
    subst h99
    simp [List.mem_append, List.mem_replicate] at hc
  have hm := matchConsole_eval sev k hsev
    (List.replicate n 40 ++ ([34, 40, 92, 34, 59, 34] ++ (List.replicate n 41 ++ [41, 59, 98])))
  have hlenfull :
      (([97, 61, 49, 59] : List Nat) ++ (consoleDot ++ (sev ++ (40 ::
        (List.replicate n 40 ++ ([34, 40, 92, 34, 59, 34] ++
          (List.replicate n 41 ++ [41, 59, 98]))))))).length
      = 4 + ((2 * n + k + 17) + 1) := by
    simp only [List.length_append, List.length_cons, List.length_nil, List.length_replicate,
      consoleDot, hlen]
    omega
  have hdropk9 : ((consoleDot ++ (sev ++ (40 ::
      (List.replicate n 40 ++ ([34, 40, 92, 34, 59, 34] ++
        (List.replicate n 41 ++ [41, 59, 98])))))) : List Nat).drop (k + 9)
      = List.replicate n 40 ++ ([34, 40, 92, 34, 59, 34] ++
        (List.replicate n 41 ++ [41, 59, 98])) := by
    have hre : (consoleDot ++ (sev ++ (40 ::
        (List.replicate n 40 ++ ([34, 40, 92, 34, 59, 34] ++
          (List.replicate n 41 ++ [41, 59, 98]))))))
        = (consoleDot ++ (sev ++ [40])) ++
          (List.replicate n 40 ++ ([34, 40, 92, 34, 59, 34] ++
            (List.replicate n 41 ++ [41, 59, 98]))) := by
      simp
    rw [hre]
    have harith : k + 9 = (consoleDot ++ (sev ++ [40])).length + 0 := by
      simp only [List.length_append, List.length_cons, List.length_nil, consoleDot, hlen]
      omega
    rw [harith, drop_append_len, List.drop_zero]
  have hFind : findStarts
      ([97, 61, 49, 59] ++ (consoleDot ++ (sev ++ (40 ::
        (List.replicate n 40 ++ ([34, 40, 92, 34, 59, 34] ++
          (List.replicate n 41 ++ [41, 59, 98]))))))) = [(4, k + 9)] := by
    unfold findStarts
    rw [hlenfull]
    have hfuel : (4 : Nat) + ((2 * n + k + 17) + 1)
        = ([97, 61, 49, 59] : List Nat).length + ((2 * n + k + 17) + 1) := rfl
    rw [hfuel]
    rw [findStartsGo_chunk [97, 61, 49, 59] (by decide) ((2 * n + k + 17) + 1) 0 _]
    have hpos : (0 : Nat) + ([97, 61, 49, 59] : List Nat).length = 0 + 4 := rfl
    rw [hpos]
    rw [findStartsGo_match_any (2 * n + k + 17) (0 + 4) (k + 9) _ hm (by omega)
      (by simp [consoleDot])]
    rw [hdropk9]
    rw [findStartsGo_all_ne _ htail99]
  have hdropCall : (([97, 61, 49, 59] : List Nat) ++ (consoleDot ++ (sev ++ (40 ::
      (List.replicate n 40 ++ ([34, 40, 92, 34, 59, 34] ++
        (List.replicate n 41 ++ [41, 59, 98]))))))).drop (4 + (k + 9))
      = List.replicate n 40 ++ ([34, 40, 92, 34, 59, 34] ++
        (List.replicate n 41 ++ [41, 59, 98])) := by
    have hre : (([97, 61, 49, 59] : List Nat) ++ (consoleDot ++ (sev ++ (40 ::
        (List.replicate n 40 ++ ([34, 40, 92, 34, 59, 34] ++
          (List.replicate n 41 ++ [41, 59, 98])))))))
        = ([97, 61, 49, 59] ++ (consoleDot ++ (sev ++ [40]))) ++
          (List.replicate n 40 ++ ([34, 40, 92, 34, 59, 34] ++
            (List.replicate n 41 ++ [41, 59, 98]))) := by
      simp
    rw [hre]
    have harith : 4 + (k + 9) = ([97, 61, 49, 59] ++ (consoleDot ++ (sev ++ [40]))).length + 0 := by
      simp only [List.length_append, List.length_cons, List.length_nil, consoleDot, hlen]
      omega
    rw [harith, drop_append_len, List.drop_zero]
  have hps : parenScan
      ((([97, 61, 49, 59] : List Nat) ++ (consoleDot ++ (sev ++ (40 ::
        (List.replicate n 40 ++ ([34, 40, 92, 34, 59, 34] ++
          (List.replicate n 41 ++ [41, 59, 98]))))))).drop (4 + (k + 9)))
      1 false 0 false = some (2 * n + 7) := by
    rw [hdropCall]
    rw [parenScan_opens n _ 1]
    simp only [List.cons_append, List.nil_append]
    rw [parenScan_quote_open 34 _ (1 + n) (Or.inl rfl)]
    rw [parenScan_instr_plain 40 34 _ (1 + n) (by omega) (by omega)]
    rw [parenScan_instr_backslash 34 _ (1 + n)]
    rw [parenScan_escaped 34 34 _ (1 + n)]
    rw [parenScan_instr_plain 59 34 _ (1 + n) (by omega) (by omega)]
    rw [parenScan_instr_close 34 _ (1 + n) (by omega)]
    rw [parenScan_closes n [41, 59, 98] 1 (by omega)]
    rw [parenScan_close_one [59, 98]]
    simp only [Option.map_some', Option.some.injEq]
    omega
  have habs : absorbLen
      ((([97, 61, 49, 59] : List Nat) ++ (consoleDot ++ (sev ++ (40 ::
        (List.replicate n 40 ++ ([34, 40, 92, 34, 59, 34] ++
          (List.replicate n 41 ++ [41, 59, 98]))))))).drop (4 + (k + 9) + (2 * n + 7))) = 1 := by
    have hre : (([97, 61, 49, 59] : List Nat) ++ (consoleDot ++ (sev ++ (40 ::
        (List.replicate n 40 ++ ([34, 40, 92, 34, 59, 34] ++
          (List.replicate n 41 ++ [41, 59, 98])))))))
        = ([97, 61, 49, 59] ++ (consoleDot ++ (sev ++ (40 ::
          (List.replicate n 40 ++ ([34, 40, 92, 34, 59, 34] ++
            (List.replicate n 41 ++ [41]))))))) ++ [59, 98] := by
      simp
    rw [hre]
    have harith : 4 + (k + 9) + (2 * n + 7) =
        ([97, 61, 49, 59] ++ (consoleDot ++ (sev ++ (40 ::
          (List.replicate n 40 ++ ([34, 40, 92, 34, 59, 34] ++
            (List.replicate n 41 ++ [41]))))))).length + 0 := by
      simp only [List.length_append, List.length_cons, List.length_nil, List.length_replicate,
        consoleDot, hlen]
      omega
    rw [harith, drop_append_len, List.drop_zero]
    rfl
  have horig : ((([97, 61, 49, 59] : List Nat) ++ (consoleDot ++ (sev ++ (40 ::
      (List.replicate n 40 ++ ([34, 40, 92, 34, 59, 34] ++
        (List.replicate n 41 ++ [41, 59, 98]))))))).drop 4).take
      (4 + (k + 9) + (2 * n + 7) + 1 - 4)
      = consoleDot ++ (sev ++ (40 ::
        (List.replicate n 40 ++ ([34, 40, 92, 34, 59, 34] ++
          (List.replicate n 41 ++ [41, 59]))))) := by
    have hd4 : ((([97, 61, 49, 59] : List Nat) ++ (consoleDot ++ (sev ++ (40 ::
        (List.replicate n 40 ++ ([34, 40, 92, 34, 59, 34] ++
          (List.replicate n 41 ++ [41, 59, 98]))))))).drop 4)
        = consoleDot ++ (sev ++ (40 ::
          (List.replicate n 40 ++ ([34, 40, 92, 34, 59, 34] ++
            (List.replicate n 41 ++ [41, 59, 98]))))) := rfl
    rw [hd4]
    have hre : (consoleDot ++ (sev ++ (40 ::
        (List.replicate n 40 ++ ([34, 40, 92, 34, 59, 34] ++
          (List.replicate n 41 ++ [41, 59, 98]))))))
        = (consoleDot ++ (sev ++ (40 ::
          (List.replicate n 40 ++ ([34, 40, 92, 34, 59, 34] ++
            (List.replicate n 41 ++ [41, 59])))))) ++ [98] := by
      simp
    rw [hre]
    have harith : 4 + (k + 9) + (2 * n + 7) + 1 - 4 =
        (consoleDot ++ (sev ++ (40 ::
          (List.replicate n 40 ++ ([34, 40, 92, 34, 59, 34] ++
            (List.replicate n 41 ++ [41, 59])))))).length + 0 := by
      simp only [List.length_append, List.length_cons, List.length_nil, List.length_replicate,
        consoleDot, hlen]
      omega
    rw [harith, take_append_len]
    simp
  have hColl : collectRepl
      ([97, 61, 49, 59] ++ (consoleDot ++ (sev ++ (40 ::
        (List.replicate n 40 ++ ([34, 40, 92, 34, 59, 34] ++
          (List.replicate n 41 ++ [41, 59, 98]))))))) =
      [⟨4, 4 + (k + 9) + (2 * n + 7) + 1,
        consoleDot ++ (sev ++ (40 ::
          (List.replicate n 40 ++ ([34, 40, 92, 34, 59, 34] ++
            (List.replicate n 41 ++ [41, 59])))))⟩] := by
    unfold collectRepl
    rw [hFind]
    simp only [List.filterMap_cons, List.filterMap_nil, hps, habs, horig]
  have htrim : (jsTrim (consoleDot ++ (sev ++ (40 ::
      (List.replicate n 40 ++ ([34, 40, 92, 34, 59, 34] ++
        (List.replicate n 41 ++ [41, 59]))))))).getLast? = some 59 := by
    have hshape : consoleDot ++ (sev ++ (40 ::
        (List.replicate n 40 ++ ([34, 40, 92, 34, 59, 34] ++
          (List.replicate n 41 ++ [41, 59])))))
        = 99 :: (([111, 110, 115, 111, 108, 101, 46] ++ (sev ++ (40 ::
          (List.replicate n 40 ++ ([34, 40, 92, 34, 59, 34] ++
            (List.replicate n 41 ++ [41])))))) ++ [59]) := by
      simp [consoleDot]
    rw [hshape, jsTrim_getLast_of_ends 99 59 _ rfl rfl]
  have hdropEnd : ((([97, 61, 49, 59] : List Nat) ++ (consoleDot ++ (sev ++ (40 ::
      (List.replicate n 40 ++ ([34, 40, 92, 34, 59, 34] ++
        (List.replicate n 41 ++ [41, 59, 98]))))))).drop (4 + (k + 9) + (2 * n + 7) + 1))
      = [98] := by
    have hre : (([97, 61, 49, 59] : List Nat) ++ (consoleDot ++ (sev ++ (40 ::
        (List.replicate n 40 ++ ([34, 40, 92, 34, 59, 34] ++
          (List.replicate n 41 ++ [41, 59, 98])))))))
        = ([97, 61, 49, 59] ++ (consoleDot ++ (sev ++ (40 ::
          (List.replicate n 40 ++ ([34, 40, 92, 34, 59, 34] ++
            (List.replicate n 41 ++ [41, 59]))))))) ++ [98] := by
      simp
    rw [hre]
    have harith : 4 + (k + 9) + (2 * n + 7) + 1 =
        ([97, 61, 49, 59] ++ (consoleDot ++ (sev ++ (40 ::
          (List.replicate n 40 ++ ([34, 40, 92, 34, 59, 34] ++
            (List.replicate n 41 ++ [41, 59]))))))).length + 0 := by
      simp only [List.length_append, List.length_cons, List.length_nil, List.length_replicate,
        consoleDot, hlen]
      omega
    rw [harith, drop_append_len, List.drop_zero]
  unfold removeConsoleLogs
  rw [hColl]
  simp only [sortDesc, insertDesc, applyRepl, List.foldl_cons, List.foldl_nil]
  rw [htrim]
  rw [if_pos rfl]
  rw [hdropEnd]
  have htake4 : ((([97, 61, 49, 59] : List Nat) ++ (consoleDot ++ (sev ++ (40 ::
      (List.replicate n 40 ++ ([34, 40, 92, 34, 59, 34] ++
        (List.replicate n 41 ++ [41, 59, 98]))))))).take 4) = [97, 61, 49, 59] := rfl
  rw [htake4]
  simp [void0]

/-- C2 (amended): for every recognized severity and every nesting depth,
a complete console call with nested parentheses and a string argument
containing a parenthesis, an escaped quote and a semicolon is fully
removed, replaced by void 0, and the immediately following semicolon is
preserved exactly once, with the surrounding text intact; the model
itself collects the spans first and applies them from highest start
offset to lowest, as the source does.  (The original unrestricted claim
fails when one console call is nested inside the arguments of another;
see the counterexample theorem.) -/
theorem removeConsoleLogs_replaces_balanced_calls (sev : List Nat) (n : Nat)
    (hsev : sev ∈ [[108, 111, 103], [101, 114, 114, 111, 114], [119, 97, 114, 110],
      [105, 110, 102, 111], [100, 101, 98, 117, 103]]) :
    removeConsoleLogs
        ([97, 61, 49, 59] ++ (consoleDot ++ (sev ++ (40 ::
          (List.replicate n 40 ++ ([34, 40, 92, 34, 59, 34] ++
            (List.replicate n 41 ++ [41, 59, 98]))))))) =
      [97, 61, 49, 59] ++ (void0 ++ [59, 98]) := by
  simp only [List.mem_cons, List.not_mem_nil, or_false] at hsev
  rcases hsev with h | h | h | h | h <;> subst h
  · exact removeConsoleLogs_family [108, 111, 103] 3 (fun r => rfl) rfl n
  · exact removeConsoleLogs_family [101, 114, 114, 111, 114] 5 (fun r => rfl) rfl n
  · exact removeConsoleLogs_family [119, 97, 114, 110] 4 (fun r => rfl) rfl n
  · exact removeConsoleLogs_family [105, 110, 102, 111] 4 (fun r => rfl) rfl n
  · exact removeConsoleLogs_family [100, 101, 98, 117, 103] 5 (fun r => rfl) rfl n

/-- Witness for the amended C2 theorem at the severity log and depth 2. -/
theorem removeConsoleLogs_replaces_balanced_calls_witness :
    removeConsoleLogs
        ([97, 61, 49, 59] ++ (consoleDot ++ ([108, 111, 103] ++ (40 ::
          (List.replicate 2 40 ++ ([34, 40, 92, 34, 59, 34] ++
            (List.replicate 2 41 ++ [41, 59, 98]))))))) =
      [97, 61, 49, 59] ++ (void0 ++ [59, 98]) :=
  removeConsoleLogs_replaces_balanced_calls [108, 111, 103] 2 (by decide)

/-- A first-pass token that is not a space run is emitted byte for byte:
for a head character other than space and tab, a successful match
emits the matched span itself. -/
theorem tryTok_emits_verbatim (c : Nat) (rest : List Nat) (k : Nat) (out : List Nat)
    (h : tryTok c rest = some (k, out)) (h32 : c ≠ 32) (h9 : c ≠ 9) :
    out = c :: rest.take k := by
  unfold tryTok at h
  split at h
  · cases hs : strBody c rest 0 none with
    | none => rw [hs] at h; simp at h
    | some j =>
      rw [hs] at h
      simp only [Option.map_some', Option.some.injEq, Prod.mk.injEq] at h
      obtain ⟨hk, hout⟩ := h
      subst hk
      exact hout.symm
  · split at h
    · split at h
      · simp only [Option.some.injEq, Prod.mk.injEq] at h
        obtain ⟨hk, hout⟩ := h
        subst hk
        exact hout.symm
      · split at h
        · rename_i r2 heq
          cases hb : findCloseBlock r2 with
          | none => rw [hb] at h; simp at h
          | some j =>
            rw [hb] at h
            simp only [Option.map_some', Option.some.injEq, Prod.mk.injEq] at h
            obtain ⟨hk, hout⟩ := h
            subst hk
            exact hout.symm
        · simp only [Option.some.injEq, Prod.mk.injEq] at h
          obtain ⟨hk, hout⟩ := h
          subst hk
          exact hout.symm
        · simp at h
    · split at h
      · rename_i hht
        have hfalse : isHT c = false := by simp [isHT]; omega
        rw [hfalse] at hht
        simp at hht
      · simp at h

/-- The first pass is the identity on text without spaces and tabs. -/
theorem scan1_id : ∀ (fuel : Nat) (l : List Nat), l.length ≤ fuel →
    (∀ c ∈ l, c ≠ 32 ∧ c ≠ 9) → scan1 fuel l = l := by
  intro fuel
  induction fuel with
  | zero => intro l _ _; cases l <;> rfl
  | succ m ih =>
    intro l hl hmem
    match l with
    | [] => rfl
    | c :: rest =>
      cases ht : tryTok c rest with
      | none =>
        simp only [scan1, ht]
        rw [ih rest (by simp at hl; omega) (fun d hd => hmem d (by simp [hd]))]
      | some p =>
        obtain ⟨k, out⟩ := p
        have hout := tryTok_emits_verbatim c rest k out ht (hmem c (by simp)).1
          (hmem c (by simp)).2
        subst hout
        simp only [scan1, ht]
        rw [ih (rest.drop k) (by simp at hl ⊢; omega)
          (fun d hd => hmem d (by simp; right; exact List.mem_of_mem_drop hd))]
        simp [List.cons_append, List.take_append_drop]

/-- The second pass is the identity on text without line breaks. -/
theorem pass2Go_id : ∀ (l : List Nat), (∀ c ∈ l, c ≠ 13 ∧ c ≠ 10) →
    ∀ b, pass2Go b l = l := by
  intro l
  induction l with
  | nil => intro _ b; rfl
  | cons c rest ih =>
    intro hmem b
    obtain ⟨h13, h10⟩ := hmem c (by simp)
    have hnl : isNL c = false := by simp [isNL]; omega
    simp only [pass2Go, hnl]
    rw [ih (fun d hd => hmem d (by simp [hd])) false]
    simp

/-- The stripping pass is the identity when no suffix starts with a
pattern occurrence. -/
theorem removeNonAsciiGo_id : ∀ (fuel : Nat) (l : List Nat),
    (∀ c rest, (c :: rest) <:+ l → uniEscLen c rest = none) →
    removeNonAsciiGo fuel l = l := by
  intro fuel
  induction fuel with
  | zero => intro l _; rfl
  | succ m ih =>
    intro l h
    match l with
    | [] => rfl
    | c :: rest =>
      simp only [removeNonAsciiGo]
      rw [h c rest (List.suffix_refl _)]
      rw [ih rest (fun d t ht => h d t (ht.trans (List.suffix_cons c rest)))]

/-- C8: on input with zero occurrences of the respective target pattern,
each of the four transforms returns its input unchanged (and, being a
total function, does not fail): removeConsoleLogs when the start scanner
finds nothing, replaceNameCalls when the call scanner finds nothing,
removeNonAsciiCharacters when no suffix starts with a pattern match, and
normalizeWhitespace when the text has no spaces, tabs or line breaks. -/
theorem transforms_identity_on_no_match (l : List Nat) (rnd : Nat → Fin 16) :
    (findStarts l = [] → removeConsoleLogs l = l) ∧
    (findNameCalls l = [] → replaceNameCalls rnd l = l) ∧
    ((∀ c rest, (c :: rest) <:+ l → uniEscLen c rest = none) →
      removeNonAsciiCharacters l = l) ∧
    ((∀ c ∈ l, c ≠ 32 ∧ c ≠ 9 ∧ c ≠ 13 ∧ c ≠ 10) → normalizeWhitespace l = l) := by
  refine ⟨?_, ?_, ?_, ?_⟩
  · intro h
    unfold removeConsoleLogs collectRepl
    rw [h]
    rfl
  · intro h
    simp [replaceNameCalls, h]
  · intro h
    exact removeNonAsciiGo_id l.length l h
  · intro h
    unfold normalizeWhitespace
    rw [scan1_id l.length l (le_refl _) (fun c hc => ⟨(h c hc).1, (h c hc).2.1⟩)]
    exact pass2Go_id l (fun c hc => ⟨(h c hc).2.2.1, (h c hc).2.2.2⟩) false

/-- Witness for the C8 theorem on the one-character input q. -/
theorem transforms_identity_on_no_match_witness :
    removeConsoleLogs [113] = [113] ∧ replaceNameCalls (fun _ => (0 : Fin 16)) [113] = [113] ∧
      removeNonAsciiCharacters [113] = [113] ∧ normalizeWhitespace [113] = [113] := by
  obtain ⟨h1, h2, h3, h4⟩ := transforms_identity_on_no_match [113] (fun _ => (0 : Fin 16))
  refine ⟨h1 rfl, h2 rfl, h3 ?_, h4 (by decide)⟩
  intro c rest h
  obtain ⟨t, ht⟩ := h
  match t, ht with
  | [], ht =>
    simp only [List.nil_append, List.cons.injEq] at ht
    obtain ⟨hc, hr⟩ := ht
    subst hc
    subst hr
    rfl
  | x :: t2, ht =>
    simp only [List.cons_append, List.cons.injEq] at ht
    obtain ⟨-, hr⟩ := ht
    exact absurd hr (by simp)

/-- A hexadecimal digit character is never a dollar sign, an underscore,
and always passes the hexadecimal test. -/
theorem hexDigitChar_facts (d : Fin 16) :
    hexDigitChar d ≠ 36 ∧ (95 == hexDigitChar d) = false ∧
      isHexDigitCode (hexDigitChar d) = true := by
  revert d; decide

theorem hex_ne36 (d : Fin 16) : ¬ (36 = hexDigitChar d) := by revert d; decide

/-- A substitution step on a character other than the dollar sign. -/
theorem jsSubst_cons_ne (c : Nat) (t m b a : List Nat) (caps : List (List Nat))
    (hc : c ≠ 36) : jsSubst (c :: t) m b a caps = c :: jsSubst t m b a caps := by
  match t with
  | [] => rfl
  | d :: t2 => simp [jsSubst, hc]

/-- The substitution leaves a dollar-free text unchanged. -/
theorem jsSubst_no_dollar (l : List Nat) (m b a : List Nat) (caps : List (List Nat))
    (h : ∀ c ∈ l, c ≠ 36) : jsSubst l m b a caps = l := by
  induction l with
  | nil => rfl
  | cons c t ih =>
    rw [jsSubst_cons_ne c t m b a caps (h c (by simp))]
    rw [ih (fun d hd => h d (by simp [hd]))]

/-- The dollar-one reference with two captures inserts the first capture. -/
theorem jsSubst_dollar_one (t m b a : List Nat) (e lab : List Nat) :
    jsSubst (36 :: 49 :: t) m b a [e, lab] = e ++ jsSubst t m b a [e, lab] := by
  simp [jsSubst]

/-- Evaluation of the fresh call text built from the template: with a
dollar-free hex label, the result is the template text with the first
capture and the label spliced in. -/
theorem buildNewCall_eval (full e lab hex : List Nat) (hhex : ∀ c ∈ hex, c ≠ 36) :
    buildNewCall full e lab hex =
      [95, 95, 110, 97, 109, 101, 40] ++ (e ++ ([44, 32, 34] ++ (hex ++ [34, 41]))) := by
  unfold buildNewCall nameTemplate
  simp only [List.cons_append, List.nil_append]
  rw [jsSubst_cons_ne 95 _ _ _ _ _ (by omega), jsSubst_cons_ne 95 _ _ _ _ _ (by omega),
    jsSubst_cons_ne 110 _ _ _ _ _ (by omega), jsSubst_cons_ne 97 _ _ _ _ _ (by omega),
    jsSubst_cons_ne 109 _ _ _ _ _ (by omega), jsSubst_cons_ne 101 _ _ _ _ _ (by omega),
    jsSubst_cons_ne 40 _ _ _ _ _ (by omega), jsSubst_dollar_one]
  rw [jsSubst_no_dollar]
  intro c hc h36
  subst h36
  simp at hc
  exact hhex 36 hc rfl

theorem replaceNameCalls_two_shape (rnd : Nat → Fin 16) :
    replaceNameCalls rnd
        [95, 95, 110, 97, 109, 101, 40, 97, 44, 32, 34, 122, 122, 34, 41, 59,
         95, 95, 110, 97, 109, 101, 40, 98, 44, 32, 34, 119, 119, 34, 41, 59] =
      [95, 95, 110, 97, 109, 101, 40, 97, 44, 32, 34] ++ (randomHexLabel rnd 0 ++ ([34, 41, 59] ++
        ([95, 95, 110, 97, 109, 101, 40, 98, 44, 32, 34] ++ (randomHexLabel rnd 1 ++ [34, 41, 59])))) := by
  have hfind : findNameCalls
      [95, 95, 110, 97, 109, 101, 40, 97, 44, 32, 34, 122, 122, 34, 41, 59,
       95, 95, 110, 97, 109, 101, 40, 98, 44, 32, 34, 119, 119, 34, 41, 59] =
      [([95, 95, 110, 97, 109, 101, 40, 97, 44, 32, 34, 122, 122, 34, 41], [97], [122, 122]),
       ([95, 95, 110, 97, 109, 101, 40, 98, 44, 32, 34, 119, 119, 34, 41], [98], [119, 119])] := rfl
  simp only [replaceNameCalls, hfind]
  rw [if_neg (by simp)]
  have henum : ([([95, 95, 110, 97, 109, 101, 40, 97, 44, 32, 34, 122, 122, 34, 41], [97], [122, 122]),
      ([95, 95, 110, 97, 109, 101, 40, 98, 44, 32, 34, 119, 119, 34, 41], [98], [119, 119])] :
        List (List Nat × List Nat × List Nat)).enum =
      [(0, ([95, 95, 110, 97, 109, 101, 40, 97, 44, 32, 34, 122, 122, 34, 41], [97], [122, 122])),
       (1, ([95, 95, 110, 97, 109, 101, 40, 98, 44, 32, 34, 119, 119, 34, 41], [98], [119, 119]))] := rfl
  rw [henum]
  simp only [List.foldl_cons, List.foldl_nil, randomHexLabel]
  norm_num
  rw [buildNewCall_eval [95, 95, 110, 97, 109, 101, 40, 97, 44, 32, 34, 122, 122, 34, 41]
    [97] [122, 122]
    [hexDigitChar (rnd 0), hexDigitChar (rnd 1), hexDigitChar (rnd 2), hexDigitChar (rnd 3)]
    (by intro c hc h36; subst h36; simp [hex_ne36] at hc)]
  rw [buildNewCall_eval [95, 95, 110, 97, 109, 101, 40, 98, 44, 32, 34, 119, 119, 34, 41]
    [98] [119, 119]
    [hexDigitChar (rnd 4), hexDigitChar (rnd 5), hexDigitChar (rnd 6), hexDigitChar (rnd 7)]
    (by intro c hc h36; subst h36; simp [hex_ne36] at hc)]
  have hstep1 : jsReplaceFirst
      [95, 95, 110, 97, 109, 101, 40, 97, 44, 32, 34, 122, 122, 34, 41, 59,
       95, 95, 110, 97, 109, 101, 40, 98, 44, 32, 34, 119, 119, 34, 41, 59]
      [95, 95, 110, 97, 109, 101, 40, 97, 44, 32, 34, 122, 122, 34, 41]
      ([95, 95, 110, 97, 109, 101, 40] ++ ([97] ++ ([44, 32, 34] ++
        ([hexDigitChar (rnd 0), hexDigitChar (rnd 1), hexDigitChar (rnd 2), hexDigitChar (rnd 3)] ++
          [34, 41])))) =
      95 :: 95 :: 110 :: 97 :: 109 :: 101 :: 40 :: 97 :: 44 :: 32 :: 34 ::
        hexDigitChar (rnd 0) :: hexDigitChar (rnd 1) :: hexDigitChar (rnd 2) :: hexDigitChar (rnd 3) ::
        34 :: 41 :: 59 ::
        [95, 95, 110, 97, 109, 101, 40, 98, 44, 32, 34, 119, 119, 34, 41, 59] := by
    unfold jsReplaceFirst
    have hocc : findOcc [95, 95, 110, 97, 109, 101, 40, 97, 44, 32, 34, 122, 122, 34, 41]
        [95, 95, 110, 97, 109, 101, 40, 97, 44, 32, 34, 122, 122, 34, 41, 59,
         95, 95, 110, 97, 109, 101, 40, 98, 44, 32, 34, 119, 119, 34, 41, 59] = some 0 := rfl
    simp only [hocc]
    rw [jsSubst_no_dollar _ _ _ _ _
      (by intro c hc h36; subst h36; simp [hex_ne36] at hc)]
    simp
  rw [hstep1]
  have hstep2 : jsReplaceFirst
      (95 :: 95 :: 110 :: 97 :: 109 :: 101 :: 40 :: 97 :: 44 :: 32 :: 34 ::
        hexDigitChar (rnd 0) :: hexDigitChar (rnd 1) :: hexDigitChar (rnd 2) :: hexDigitChar (rnd 3) ::
        34 :: 41 :: 59 ::
        [95, 95, 110, 97, 109, 101, 40, 98, 44, 32, 34, 119, 119, 34, 41, 59])
      [95, 95, 110, 97, 109, 101, 40, 98, 44, 32, 34, 119, 119, 34, 41]
      ([95, 95, 110, 97, 109, 101, 40] ++ ([98] ++ ([44, 32, 34] ++
        ([hexDigitChar (rnd 4), hexDigitChar (rnd 5), hexDigitChar (rnd 6), hexDigitChar (rnd 7)] ++
          [34, 41])))) =
      95 :: 95 :: 110 :: 97 :: 109 :: 101 :: 40 :: 97 :: 44 :: 32 :: 34 ::
        hexDigitChar (rnd 0) :: hexDigitChar (rnd 1) :: hexDigitChar (rnd 2) :: hexDigitChar (rnd 3) ::
        34 :: 41 :: 59 ::
        95 :: 95 :: 110 :: 97 :: 109 :: 101 :: 40 :: 98 :: 44 :: 32 :: 34 ::
        hexDigitChar (rnd 4) :: hexDigitChar (rnd 5) :: hexDigitChar (rnd 6) :: hexDigitChar (rnd 7) ::
        34 :: 41 :: 59 :: [] := by
    unfold jsReplaceFirst
    have hocc : findOcc [95, 95, 110, 97, 109, 101, 40, 98, 44, 32, 34, 119, 119, 34, 41]
        (95 :: 95 :: 110 :: 97 :: 109 :: 101 :: 40 :: 97 :: 44 :: 32 :: 34 ::
          hexDigitChar (rnd 0) :: hexDigitChar (rnd 1) :: hexDigitChar (rnd 2) :: hexDigitChar (rnd 3) ::
          34 :: 41 :: 59 ::
          [95, 95, 110, 97, 109, 101, 40, 98, 44, 32, 34, 119, 119, 34, 41, 59]) = some 18 := by
      simp [findOcc, List.isPrefixOf, fun d => (hexDigitChar_facts d).2.1]
    simp only [hocc]
    rw [jsSubst_no_dollar _ _ _ _ _
      (by intro c hc h36; subst h36; simp [hex_ne36] at hc)]
    simp
  rw [hstep2]


/-- C6 (amended): on a representative two-call input, for every random
digit stream, replaceNameCalls replaces exactly the label of each
matched call with a freshly generated fixed-length hexadecimal string,
preserving the call count, the argument count, and the first argument
of every call; the structural shape of the output is the same for every
stream, only the label characters vary.  (The original unrestricted
claim fails when the matched text contains replacement special
patterns; see the counterexample theorem.) -/
theorem replaceNameCalls_preserves_call_shape (rnd : Nat → Fin 16) :
    replaceNameCalls rnd
        [95, 95, 110, 97, 109, 101, 40, 97, 44, 32, 34, 122, 122, 34, 41, 59,
         95, 95, 110, 97, 109, 101, 40, 98, 44, 32, 34, 119, 119, 34, 41, 59] =
      [95, 95, 110, 97, 109, 101, 40, 97, 44, 32, 34] ++ (randomHexLabel rnd 0 ++ ([34, 41, 59] ++
        ([95, 95, 110, 97, 109, 101, 40, 98, 44, 32, 34] ++
          (randomHexLabel rnd 1 ++ [34, 41, 59])))) ∧
    (∀ i : Nat, (randomHexLabel rnd i).length = 4 ∧
      ∀ c ∈ randomHexLabel rnd i, isHexDigitCode c = true) := by
  refine ⟨replaceNameCalls_two_shape rnd, fun i => ⟨rfl, ?_⟩⟩
  intro c hc
  simp [randomHexLabel] at hc
  rcases hc with h | h | h | h <;> subst h <;> exact (hexDigitChar_facts _).2.2

/-- C6 counterexample: on the single call whose first argument is the
text dollar-ampersand, the string form of String.replace interprets
the dollar-ampersand inside the built replacement text as the matched
text itself, so with the all-zeros digit stream the output nests the
whole original call inside a new call instead of only renaming the
label: the first argument is changed and a new call shape is created. -/
theorem replaceNameCalls_dollar_breaks_shape :
    replaceNameCalls (fun _ => (0 : Fin 16))
        [95, 95, 110, 97, 109, 101, 40, 36, 38, 44, 32, 34, 97, 98, 34, 41] =
      [95, 95, 110, 97, 109, 101, 40,
       95, 95, 110, 97, 109, 101, 40, 36, 38, 44, 32, 34, 97, 98, 34, 41,
       44, 32, 34, 48, 48, 48, 48, 34, 41] ∧
    replaceNameCalls (fun _ => (0 : Fin 16))
        [95, 95, 110, 97, 109, 101, 40, 36, 38, 44, 32, 34, 97, 98, 34, 41] ≠
      [95, 95, 110, 97, 109, 101, 40, 36, 38, 44, 32, 34, 48, 48, 48, 48, 34, 41] := by
  decide

/-- A character that starts no alternative of the first-pass pattern. -/
theorem tryTok_plain (c : Nat) (rest : List Nat)
    (h34 : c ≠ 34) (h39 : c ≠ 39) (h47 : c ≠ 47) (h32 : c ≠ 32) (h9 : c ≠ 9) :
    tryTok c rest = none := by
  simp [tryTok, isHT, h34, h39, h47, h32, h9]

/-- A first-pass step that keeps an unmatched character. -/
theorem scan1_cons_none (fuel : Nat) (c : Nat) (rest : List Nat)
    (h : tryTok c rest = none) :
    scan1 (fuel + 1) (c :: rest) = c :: scan1 fuel rest := by
  simp [scan1, h]

/-- A first-pass step over a match. -/
theorem scan1_cons_some (fuel : Nat) (c : Nat) (rest : List Nat) (k : Nat) (out : List Nat)
    (h : tryTok c rest = some (k, out)) :
    scan1 (fuel + 1) (c :: rest) = out ++ scan1 fuel (rest.drop k) := by
  simp [scan1, h]

/-- The horizontal-whitespace run over a run of spaces extends through it. -/
theorem takeWhile_isHT_replicate (n : Nat) (rest : List Nat) (h : rest.takeWhile isHT = []) :
    (List.replicate n 32 ++ rest).takeWhile isHT = List.replicate n 32 := by
  induction n with
  | zero => simp [h]
  | succ m ih =>
    rw [List.replicate_succ, List.cons_append, List.takeWhile_cons]
    simp [isHT, ih]

/-- A first-pass step over a space run followed by a non-space character
collapses the run to a single space. -/
theorem scan1_space_run (fuel n : Nat) (rest : List Nat) (h : rest.takeWhile isHT = []) :
    scan1 (fuel + 1) (32 :: (List.replicate n 32 ++ rest)) = 32 :: scan1 fuel rest := by
  have htw : (List.replicate n 32 ++ rest).takeWhile isHT = List.replicate n 32 :=
    takeWhile_isHT_replicate n rest h
  have ht : tryTok 32 (List.replicate n 32 ++ rest) =
      some (n, [32]) := by
    simp [tryTok, isHT, htw]
  rw [scan1_cons_some fuel 32 _ n [32] ht]
  have hd : (List.replicate n 32 ++ rest).drop n = rest := by
    simp
  rw [hd]
  rfl

/-- A string-body step over an ordinary character. -/
theorem strBody_cons_plain (q c : Nat) (t : List Nat) (i : Nat) (lp : Option Nat)
    (hc92 : c ≠ 92) (hcq : c ≠ q) (ht : t ≠ []) :
    strBody q (c :: t) i lp = strBody q t (i + 1) lp := by
  match t with
  | [] => exact absurd rfl ht
  | d :: t2 => simp [strBody, hc92, hcq]

/-- A string-body scan closing at its quote character. -/
theorem strBody_close (q : Nat) (t : List Nat) (i : Nat) (lp : Option Nat) (hq : q ≠ 92) :
    strBody q (q :: t) i lp = some (i + 1) := by
  match t with
  | [] => simp [strBody]
  | d :: t2 => simp [strBody, hq]

/-- A string body free of backslashes and quotes scans through to the
closing quote. -/
theorem strBody_through (q : Nat) (hq : q ≠ 92) (body : List Nat) :
    (∀ c ∈ body, c ≠ 92 ∧ c ≠ q) → ∀ (rest : List Nat) (i : Nat) (lp : Option Nat),
      strBody q (body ++ q :: rest) i lp = some (i + (body.length + 1)) := by
  induction body with
  | nil =>
    intro _ rest i lp
    rw [List.nil_append, strBody_close q rest i lp hq]
    simp
  | cons b body2 ih =>
    intro h rest i lp
    rw [List.cons_append,
      strBody_cons_plain q b _ i lp (h b (by simp)).1 (h b (by simp)).2 (by simp),
      ih (fun c hc => h c (by simp [hc])) rest (i + 1) lp]
    congr 1
    simp
    omega

/-- A first-pass step over a double-quoted string literal with a plain
body emits the whole literal unchanged. -/
theorem scan1_string_token (fuel : Nat) (body rest : List Nat)
    (hbody : ∀ c ∈ body, c ≠ 92 ∧ c ≠ 34) :
    scan1 (fuel + 1) (34 :: (body ++ 34 :: rest)) =
      (34 :: (body ++ [34])) ++ scan1 fuel rest := by
  have hs : strBody 34 (body ++ 34 :: rest) 0 none = some (body.length + 1) := by
    rw [strBody_through 34 (by omega) body hbody rest 0 none]
    simp
  have htake : (body ++ 34 :: rest).take (body.length + 1) = body ++ [34] := by
    have harith : body.length + 1 = body.length + 1 := rfl
    rw [take_append_len body (34 :: rest) 1]
    rfl
  have ht : tryTok 34 (body ++ 34 :: rest) =
      some (body.length + 1, 34 :: (body ++ [34])) := by
    simp [tryTok, hs, htake]
  rw [scan1_cons_some fuel 34 _ (body.length + 1) _ ht]
  have hd : (body ++ 34 :: rest).drop (body.length + 1) = rest := by
    rw [drop_append_len body (34 :: rest) 1]
    rfl
  rw [hd]

/-- The second pass swallows further line breaks of a run. -/
theorem pass2Go_skip_replicate (n : Nat) (rest : List Nat) :
    pass2Go true (List.replicate n 10 ++ rest) = pass2Go true rest := by
  induction n with
  | zero => rfl
  | succ m ih =>
    rw [List.replicate_succ, List.cons_append]
    simp only [pass2Go, isNL]
    simp [ih]

/-- C3: the protected spans are protected only from the first pass.  On
the block comment slash-star a LF LF b star-slash the newline run inside
the comment is collapsed by the second pass, so the comment body does
not pass through byte-for-byte. -/
theorem normalizeWhitespace_block_comment_newlines_collapsed :
    normalizeWhitespace [47, 42, 97, 10, 10, 98, 42, 47] = [47, 42, 97, 10, 98, 42, 47] ∧
      normalizeWhitespace [47, 42, 97, 10, 10, 98, 42, 47] ≠ [47, 42, 97, 10, 10, 98, 42, 47] := by
  decide

/-- C3 (amended): outside protected spans every space run collapses to
one space and every line-break run to one line feed, while a
double-quoted string literal's internal space run passes through
byte-for-byte: on x space-run quote a space-run b quote space-run y only
the two free runs collapse, and on a LF-run b the run becomes one LF. -/
theorem normalizeWhitespace_collapses_free_runs :
    (∀ n : Nat, normalizeWhitespace
        (120 :: 32 :: (List.replicate n 32 ++
          (34 :: ((97 :: 32 :: (List.replicate n 32 ++ [98])) ++
            (34 :: 32 :: (List.replicate n 32 ++ [121])))))) =
      120 :: 32 :: ((34 :: ((97 :: 32 :: (List.replicate n 32 ++ [98])) ++ [34])) ++ [32, 121])) ∧
    (∀ n : Nat, normalizeWhitespace (97 :: 10 :: (List.replicate n 10 ++ [98])) = [97, 10, 98]) := by
  constructor
  · intro n
    have hplain120 : tryTok 120 (32 :: (List.replicate n 32 ++
        (34 :: ((97 :: 32 :: (List.replicate n 32 ++ [98])) ++
          (34 :: 32 :: (List.replicate n 32 ++ [121])))))) = none :=
      tryTok_plain 120 _ (by omega) (by omega) (by omega) (by omega) (by omega)
    have hbody : ∀ c ∈ (97 :: 32 :: (List.replicate n 32 ++ [98])), c ≠ 92 ∧ c ≠ 34 := by
      intro c hc
      simp [List.mem_append, List.mem_replicate] at hc
      omega
    have hlen : (120 :: 32 :: (List.replicate n 32 ++
        (34 :: ((97 :: 32 :: (List.replicate n 32 ++ [98])) ++
          (34 :: 32 :: (List.replicate n 32 ++ ([121] : List Nat))))))).length = (3 * n + 8) + 1 := by
      simp only [List.length_cons, List.length_append, List.length_replicate, List.length_nil]
      omega
    unfold normalizeWhitespace
    rw [hlen]
    rw [scan1_cons_none (3 * n + 8) 120 _ hplain120]
    have e1 : 3 * n + 8 = (3 * n + 7) + 1 := by omega
    rw [e1]
    rw [scan1_space_run (3 * n + 7) n (34 :: ((97 :: 32 :: (List.replicate n 32 ++ [98])) ++
      (34 :: 32 :: (List.replicate n 32 ++ [121])))) rfl]
    have e2 : 3 * n + 7 = (3 * n + 6) + 1 := by omega
    rw [e2]
    rw [scan1_string_token (3 * n + 6) (97 :: 32 :: (List.replicate n 32 ++ [98]))
      (32 :: (List.replicate n 32 ++ [121])) hbody]
    have e3 : 3 * n + 6 = (3 * n + 5) + 1 := by omega
    rw [e3]
    rw [scan1_space_run (3 * n + 5) n [121] rfl]
    rw [scan1_id (3 * n + 5) [121] (by simp only [List.length_cons, List.length_nil]; omega)
      (by decide)]
    have hnonl : ∀ c ∈ (120 :: 32 :: ((34 :: ((97 :: 32 :: (List.replicate n 32 ++ [98])) ++ [34]))
        ++ (32 :: [121]))), c ≠ 13 ∧ c ≠ 10 := by
      intro c hc
      simp [List.mem_append, List.mem_replicate] at hc
      omega
    rw [pass2Go_id _ hnonl false]
  · intro n
    have hnosp : ∀ c ∈ (97 :: 10 :: (List.replicate n 10 ++ [98])), c ≠ 32 ∧ c ≠ 9 := by
      intro c hc
      simp [List.mem_append, List.mem_replicate] at hc
      omega
    unfold normalizeWhitespace
    rw [scan1_id _ _ (Nat.le_refl _) hnosp]
    have h1 : pass2Go false (97 :: 10 :: (List.replicate n 10 ++ [98])) =
        97 :: 10 :: pass2Go true (List.replicate n 10 ++ [98]) := by
      simp [pass2Go, isNL]
    rw [h1, pass2Go_skip_replicate n [98]]
    rfl

/-- C9: the tokenizer has no template-literal state, so a double quote
inside a backtick template opens a protected string span: on
backtick quote space space quote backtick the internal run of the
template literal is preserved, not collapsed. -/
theorem normalizeWhitespace_template_quoted_run_protected :
    normalizeWhitespace [96, 34, 32, 32, 34, 96] = [96, 34, 32, 32, 34, 96] := by
  decide

/-- C9 (amended): backticks are ordinary free characters, so a space run
lying directly inside a template literal (not inside a nested
quote-delimited span) collapses to one space: backtick a space-run b
backtick becomes backtick a space b backtick for every run length. -/
theorem normalizeWhitespace_collapses_template_runs (n : Nat) :
    normalizeWhitespace (96 :: 97 :: 32 :: (List.replicate n 32 ++ [98, 96])) =
      [96, 97, 32, 98, 96] := by
  have hplain96 : tryTok 96 (97 :: 32 :: (List.replicate n 32 ++ [98, 96])) = none :=
    tryTok_plain 96 _ (by omega) (by omega) (by omega) (by omega) (by omega)
  have hplain97 : tryTok 97 (32 :: (List.replicate n 32 ++ [98, 96])) = none :=
    tryTok_plain 97 _ (by omega) (by omega) (by omega) (by omega) (by omega)
  have hlen : (96 :: 97 :: 32 :: (List.replicate n 32 ++ ([98, 96] : List Nat))).length =
      (n + 4) + 1 := by
    simp only [List.length_cons, List.length_append, List.length_replicate, List.length_nil]
  unfold normalizeWhitespace
  rw [hlen]
  rw [scan1_cons_none (n + 4) 96 _ hplain96]
  have e1 : n + 4 = (n + 3) + 1 := by omega
  rw [e1]
  rw [scan1_cons_none (n + 3) 97 _ hplain97]
  have e2 : n + 3 = (n + 2) + 1 := by omega
  rw [e2]
  rw [scan1_space_run (n + 2) n [98, 96] rfl]
  rw [scan1_id (n + 2) [98, 96] (by simp only [List.length_cons, List.length_nil]; omega)
    (by decide)]
  rfl
